import Mathlib

/-!
Verification development for a small Lisp interpreter written in Go
(files `main.go` / `main_test.go`).

The Go program represents runtime values as `interface{}` holding one of:
the nil interface (Lisp `NIL`), `string` (symbols), `int` (integers), and
`[]interface{}` (lists).  Strings are modelled as `List Char`, the Go map
`map[string]interface{}` as a function `List Char → Option Value`, and
panics as an explicit `Outcome.panic` carrying the panic message.  The
mutually recursive `myEval`/`myApply` pair, which can diverge on user
programs, is modelled with a fuel parameter consumed once per `myEval`
nesting level; `Outcome.fuel` marks fuel exhaustion and is distinct from
every real outcome of the program.
-/

/-- Character sequences, modelling Go strings (the tokenizer walks bytes;
all text relevant here is ASCII). -/
abbrev Str := List Char

/-- Uppercasing, modelling Go `strings.ToUpper` on the ASCII fragment. -/
def upper (s : Str) : Str := s.map Char.toUpper

/-- Value of a decimal digit string, accumulated left to right as in Go
`strconv.Atoi`. -/
def digitsToNat (ds : List Char) : Nat :=
  ds.foldl (fun a c => a * 10 + (c.toNat - '0'.toNat)) 0

/-- The character for decimal digit d. -/
def digitChar (d : Nat) : Char := Char.ofNat ('0'.toNat + d)

/-- Digits of n, little endian, by repeated division by 10.  The first
argument is fuel; `n` itself always suffices since `n / 10 < n`. -/
def natDecimalRev : Nat → Nat → List Char
  | 0, _ => []
  | _ + 1, 0 => []
  | f + 1, n + 1 => digitChar ((n + 1) % 10) :: natDecimalRev f ((n + 1) / 10)

/-- Decimal text of a natural number. -/
def natDecimal (n : Nat) : Str :=
  if n = 0 then ['0'] else (natDecimalRev n n).reverse

/-- Models Go `fmt.Sprintf("%d", v)` on int: an optional minus sign and the
decimal digits. -/
def intDecimal (n : Int) : Str :=
  if n < 0 then '-' :: natDecimal n.natAbs else natDecimal n.toNat

/-- Runtime values of the interpreter: the Go `interface{}` with its four
possible dynamic types.  `Value.nil` is the nil interface; a `[]interface{}`
(even an empty or nil slice) is `Value.list`. -/
inductive Value where
  | nil : Value
  | sym : Str → Value
  | int : Int → Value
  | list : List Value → Value
deriving Repr

mutual
/-- Structural (case sensitive) equality of values, used to build the
`DecidableEq` instance; this is Lean infrastructure, not a function of the
Go program (the program's `equalp` is case insensitive on symbols). -/
def veq : Value → Value → Bool
  | .nil, .nil => true
  | .sym x, .sym s => x = s
  | .int x, .int n => x = n
  | .list xs, .list ys => veqList xs ys
  | _, _ => false

/-- Elementwise `veq` on value lists. -/
def veqList : List Value → List Value → Bool
  | [], [] => true
  | x :: xs, y :: ys => veq x y && veqList xs ys
  | _, _ => false
end

/-- Induction principle for `Value` giving the hypothesis on every member of
a list value. -/
theorem value_induction (P : Value → Prop)
    (hnil : P .nil) (hsym : ∀ s, P (.sym s)) (hint : ∀ n, P (.int n))
    (hlist : ∀ xs, (∀ x ∈ xs, P x) → P (.list xs)) : ∀ v, P v := by
  have key : ∀ n (v : Value), sizeOf v ≤ n → P v := by
    intro n
    induction n with
    | zero => intro v h; cases v <;> simp at h
    | succ n ih =>
      intro v h
      cases v with
      | nil => exact hnil
      | sym s => exact hsym s
      | int m => exact hint m
      | list xs =>
        apply hlist
        intro x hx
        apply ih
        have h1 : sizeOf x < sizeOf xs := List.sizeOf_lt_of_mem hx
        have h2 : sizeOf (Value.list xs) = 1 + sizeOf xs := by simp
        omega
  intro v
  exact key (sizeOf v) v le_rfl

theorem veq_iff : ∀ a b, veq a b = true ↔ a = b := by
  intro a
  induction a using value_induction with
  | hnil => intro b; cases b <;> simp [veq]
  | hsym s => intro b; cases b <;> simp [veq]
  | hint n => intro b; cases b <;> simp [veq]
  | hlist xs ih =>
    intro b
    cases b with
    | nil => simp [veq]
    | sym s => simp [veq]
    | int n => simp [veq]
    | list ys =>
      simp only [veq, Value.list.injEq]
      induction xs generalizing ys with
      | nil => cases ys <;> simp [veqList]
      | cons x xs ihx =>
        cases ys with
        | nil => simp [veqList]
        | cons y ys =>
          simp only [veqList, Bool.and_eq_true, List.cons.injEq]
          rw [ih x (by simp), ihx (fun z hz => ih z (by simp [hz]))]

instance : DecidableEq Value := fun a b => decidable_of_iff _ (veq_iff a b)

/-- True when the value is a symbol (a Go `string`). -/
def Value.isSym : Value → Bool
  | .sym _ => true
  | _ => false

/-- Go `isSymbol`: x is a string matching s case-insensitively. -/
def isSymbol (x : Value) (s : Str) : Bool :=
  match x with
  | .sym str => upper str = upper s
  | _ => false

/-- Go `isNil`: the nil interface or any casing of the symbol NIL. -/
def isNil (x : Value) : Bool :=
  match x with
  | .nil => true
  | _ => isSymbol x ("NIL".toList)

/-- Go `boolToT`. -/
def boolToT (b : Bool) : Value :=
  if b then .sym "T".toList else .nil

mutual
/-- Go `equalp`: structural equality, case-insensitive on symbols.  The Go
nil case `return y == nil` only accepts the nil interface. -/
def equalp : Value → Value → Bool
  | .nil, y => match y with | .nil => true | _ => false
  | .sym x, y => match y with | .sym s => upper x = upper s | _ => false
  | .int x, y => match y with | .int n => x = n | _ => false
  | .list xs, y => match y with | .list ys => equalpList xs ys | _ => false

/-- The element loop of Go `equalp` on two slices (Go first compares the
lengths and then compares elementwise, which is what this computes). -/
def equalpList : List Value → List Value → Bool
  | [], [] => true
  | x :: xs, y :: ys => equalp x y && equalpList xs ys
  | _, _ => false
end

/-- Go `strings.Join(parts, " ")`. -/
def joinSpace : List Str → Str
  | [] => []
  | [x] => x
  | x :: xs => x ++ ' ' :: joinSpace xs

mutual
/-- Go `toLispString`: the printer.  nil prints NIL, symbols print their
stored spelling except that any casing of T/NIL prints canonically, ints
print in decimal (`fmt.Sprintf("%d", v)`, modelled by `intDecimal`), and lists
print as parenthesized space-joined elements. -/
def toLispString : Value → Str
  | .nil => "NIL".toList
  | .sym v =>
      if upper v = "T".toList then "T".toList
      else if upper v = "NIL".toList then "NIL".toList
      else v
  | .int n => intDecimal n
  | .list xs => '(' :: joinSpace (toLispStrings xs) ++ [')']

/-- The parts loop of Go `toLispString` on a slice. -/
def toLispStrings : List Value → List Str
  | [] => []
  | x :: xs => toLispString x :: toLispStrings xs
end

/-- Go `Alist`: `map[string]interface{}`, modelled extensionally (the map is
unordered with unique keys; note that the lookup key is the exact string,
with no case folding). -/
def Alist := Str → Option Value

/-- The empty map (the initial `globalAlist`). -/
def Alist.empty : Alist := fun _ => none

/-- Map update `m[k] = v`. -/
def Alist.set (a : Alist) (k : Str) (v : Value) : Alist :=
  fun s => if s = k then some v else a s

/-- The local environment argument of the Go evaluator.  Go passes maps by
reference and the toplevel / `setq` call `myEval(expr, globalAlist)` passes
the live global map itself, so that mutations of the global during
evaluation are visible through the "local" parameter.  `none` models that
aliased case (lookups read the current global tier); `some a` models a
fresh snapshot map built by `let`/`let*`/`bindFormals`. -/
abbrev OEnv := Option Alist

/-- The map the local-environment argument currently denotes. -/
def baseAlist (env : OEnv) (g : Alist) : Alist :=
  match env with
  | some a => a
  | none => g

/-- Result of a Go function that may panic: a normal value, a panic with the
Go panic message, or fuel exhaustion of the model. -/
inductive Outcome (α : Type) where
  | ok : α → Outcome α
  | panic : String → Outcome α
  | fuel : Outcome α
deriving Repr, DecidableEq

/-- An evaluation outcome together with the global environment as left
behind (Go panics propagate while the mutated `globalAlist` persists, so
the state is carried on every path). -/
abbrev Res := Outcome Value × Alist

/-- The type of the evaluator knot: the helpers below mirror the Go
functions, each taking the one-level-smaller evaluator as parameter. -/
abbrev Ev := Value → OEnv → Alist → Res

/-- Go `myEvalAtom`: ints self-evaluate; any casing of T/NIL is special;
other symbols are looked up (by exact spelling) in the local then global
map and self-evaluate when unbound. -/
def myEvalAtom (atom : Value) (env : OEnv) (g : Alist) : Value :=
  match atom with
  | .int n => .int n
  | .sym v =>
    if upper v = "T".toList then .sym "T".toList
    else if upper v = "NIL".toList then .nil
    else
      match baseAlist env g v with
      | some val => val
      | none =>
        match g v with
        | some val => val
        | none => .sym v
  | _ => atom

/-- Go `myEvalList`: evaluate a sequence, return the last result (`Nil` for
an empty sequence, since the Go result variable starts as the nil
interface). -/
def myEvalList (ev : Ev) : List Value → OEnv → Alist → Res
  | [], _, g => (.ok .nil, g)
  | e :: es, env, g =>
    match ev e env g with
    | (.ok v, g1) =>
      match es with
      | [] => (.ok v, g1)
      | _ :: _ => myEvalList ev es env g1
    | r => r

/-- Go `bindFormals`: checks the arity and that every formal is a symbol,
then builds a fresh map holding the formal/argument pairs (later duplicates
win, as in the Go loop) that falls back to the parent map for other keys. -/
def bindFormals (formals actuals : List Value) (alist : Alist) :
    Except String Alist :=
  if formals.length ≠ actuals.length then .error "Lambda argument count mismatch"
  else if formals.all Value.isSym then
    let newAlist := (List.zip formals actuals).foldl
      (fun (m : Alist) fa =>
        match fa.1 with
        | .sym s => m.set s fa.2
        | _ => m) Alist.empty
    .ok (fun k =>
      match newAlist k with
      | some v => some v
      | none => alist k)
  else .error "Formal parameters must be symbols"

/-- Go `myApplyLambda`: `fnBody` is `[formals, body...]`; build the call
environment with `bindFormals` over `alist` and evaluate the body in it. -/
def myApplyLambda (ev : Ev) (fnBody : List Value) (args : List Value)
    (alist : Alist) (g : Alist) : Res :=
  match fnBody with
  | f0 :: b0 :: body =>
    match f0 with
    | .list formals =>
      match bindFormals formals args alist with
      | .error msg => (.panic msg, g)
      | .ok newAlist => myEvalList ev (b0 :: body) (some newAlist) g
    | _ => (.panic "Invalid lambda formals", g)
  | _ => (.panic "Invalid lambda function definition", g)

/-- Go `myEvalSetq`: evaluate the value expression with the global map as
the local environment (`myEval(val, globalAlist)`, the aliased case), then
store the result under the variable. -/
def myEvalSetq (ev : Ev) (varName : Str) (val : Value) (g : Alist) : Res :=
  match ev val none g with
  | (.ok evaluated, g1) => (.ok evaluated, g1.set varName evaluated)
  | r => r

/-- Go `myEvalDefun`: check the shape `(defun fname (formals...) body...)`
and store `[formals, body...]` under the (exact) name. -/
def myEvalDefun (args : List Value) (g : Alist) : Res :=
  match args with
  | a0 :: a1 :: b0 :: body =>
    match a0 with
    | .sym fname =>
      match a1 with
      | .list formals =>
        (.ok (.sym fname), g.set fname (.list (.list formals :: b0 :: body)))
      | _ => (.panic "defun: second argument must be a list of formals", g)
    | _ => (.panic "defun: first argument must be a symbol", g)
  | _ => (.panic "defun: must have (defun fname (args...) body...)", g)

/-- Go `myEvalCond`: clauses tried in order; the first clause whose
condition is non-nil has its remaining forms evaluated as the result. -/
def myEvalCond (ev : Ev) : List Value → OEnv → Alist → Res
  | [], _, g => (.ok .nil, g)
  | c :: cs, env, g =>
    match c with
    | .list (c0 :: body) =>
      match ev c0 env g with
      | (.ok condition, g1) =>
        if isNil condition then myEvalCond ev cs env g1
        else myEvalList ev body env g1
      | r => r
    | _ => (.panic "cond: each clause must be a non-empty list", g)

/-- Go `toList`: the nil interface becomes the empty list, a slice stays
itself, and anything else is wrapped in a one-element list. -/
def toList (x : Value) : List Value :=
  match x with
  | .nil => []
  | .list l => l
  | _ => [x]

/-- The argument-evaluation loop of the default branch of Go `myApply`:
evaluate every operand left to right. -/
def myEvalArgs (ev : Ev) : List Value → OEnv → Alist → Outcome (List Value) × Alist
  | [], _, g => (.ok [], g)
  | a :: rest, env, g =>
    match ev a env g with
    | (.ok v, g1) =>
      match myEvalArgs ev rest env g1 with
      | (.ok vs, g2) => (.ok (v :: vs), g2)
      | (.panic msg, g2) => (.panic msg, g2)
      | (.fuel, g2) => (.fuel, g2)
    | (.panic msg, g1) => (.panic msg, g1)
    | (.fuel, g1) => (.fuel, g1)

/-- The AND loop of Go `myApply`: Nil on the first nil operand, else T. -/
def evalAndArgs (ev : Ev) : List Value → OEnv → Alist → Res
  | [], _, g => (.ok (.sym "T".toList), g)
  | a :: rest, env, g =>
    match ev a env g with
    | (.ok v, g1) => if isNil v then (.ok .nil, g1) else evalAndArgs ev rest env g1
    | r => r

/-- The OR loop of Go `myApply`: T on the first non-nil operand, else Nil. -/
def evalOrArgs (ev : Ev) : List Value → OEnv → Alist → Res
  | [], _, g => (.ok .nil, g)
  | a :: rest, env, g =>
    match ev a env g with
    | (.ok v, g1) =>
      if isNil v then evalOrArgs ev rest env g1 else (.ok (.sym "T".toList), g1)
    | r => r

/-- The binding loop of the LET* branch of Go `myApply`: each init
expression is evaluated in the accumulating local map. -/
def letStarBindings (ev : Ev) : List Value → Alist → Alist → Outcome Alist × Alist
  | [], localAlist, g => (.ok localAlist, g)
  | b :: rest, localAlist, g =>
    match b with
    | .list [v0, e] =>
      match v0 with
      | .sym varName =>
        match ev e (some localAlist) g with
        | (.ok v, g1) => letStarBindings ev rest (localAlist.set varName v) g1
        | (.panic msg, g1) => (.panic msg, g1)
        | (.fuel, g1) => (.fuel, g1)
      | _ => (.panic "let*: variable name must be a symbol", g)
    | _ => (.panic "let*: each binding must be a pair (var val)", g)

/-- The binding loop of the LET branch of Go `myApply`: every init
expression is evaluated in the caller's environment (parallel binding),
collecting the name/value pairs in order. -/
def letBindings (ev : Ev) : List Value → OEnv → Alist →
    Outcome (List (Str × Value)) × Alist
  | [], _, g => (.ok [], g)
  | b :: rest, env, g =>
    match b with
    | .list [v0, e] =>
      match v0 with
      | .sym varName =>
        match ev e env g with
        | (.ok v, g1) =>
          match letBindings ev rest env g1 with
          | (.ok pairs, g2) => (.ok ((varName, v) :: pairs), g2)
          | (.panic msg, g2) => (.panic msg, g2)
          | (.fuel, g2) => (.fuel, g2)
        | (.panic msg, g1) => (.panic msg, g1)
        | (.fuel, g1) => (.fuel, g1)
      | _ => (.panic "let: variable name must be a symbol", g)
    | _ => (.panic "let: each binding must be (var val)", g)

/-- The accumulation loop of the Go `+` primitive. -/
def sumInts : List Value → Int → Option Int
  | [], acc => some acc
  | .int n :: rest, acc => sumInts rest (acc + n)
  | _ :: _, _ => none

/-- The accumulation loop of the Go `-` primitive (after the first arg). -/
def subInts : List Value → Int → Option Int
  | [], acc => some acc
  | .int n :: rest, acc => subInts rest (acc - n)
  | _ :: _, _ => none

/-- The accumulation loop of the Go `*` primitive. -/
def prodInts : List Value → Int → Option Int
  | [], acc => some acc
  | .int n :: rest, acc => prodInts rest (acc * n)
  | _ :: _, _ => none

/-- The accumulation loop of the Go `/` primitive (after the first arg):
per element, a non-int panics before the zero test; Go `/` on ints
truncates toward zero (`Int.tdiv`). -/
def divInts : List Value → Int → Except String Int
  | [], acc => .ok acc
  | .int n :: rest, acc =>
    if n = 0 then .error "division by zero" else divInts rest (Int.tdiv acc n)
  | _ :: _, _ => .error "/ expects integers"

/-- Models the single-argument string case of the Go FLOOR primitive
(`strconv.ParseFloat` then `math.Floor`): an optional sign, decimal digits
and an optional fractional part, floored.  Go's ParseFloat also accepts
exponent and hex forms, which nothing in this development relies on. -/
def parseFloatFloor (s : Str) : Option Int :=
  let core : Str → Bool → Option Int := fun t neg =>
    match List.span Char.isDigit t with
    | (ip, rest) =>
      match rest with
      | [] =>
        if ip.isEmpty then none
        else some (if neg then -(digitsToNat ip : Int) else (digitsToNat ip : Int))
      | '.' :: fp =>
        if fp.all Char.isDigit && !(ip.isEmpty && fp.isEmpty) then
          let base : Int := (digitsToNat ip : Int)
          if neg then (if fp.any (fun c => c ≠ '0') then some (-(base + 1)) else some (-base))
          else some base
        else none
      | _ => none
  match s with
  | '+' :: r => core r false
  | '-' :: r => core r true
  | _ => core s false

/-- Go `appendToken`: append the pending token if non-empty. -/
def appendToken (tokens : List Str) (token : Str) : List Str :=
  if token.isEmpty then tokens else tokens ++ [token]

/-- The character loop of Go `tokenize`: `(`, `)`, `'` flush the pending
token and become their own tokens; a space flushes the pending token; every
other character (including tabs and newlines) extends the pending token. -/
def tokenizeLoop : List Char → Str → List Str
  | [], token => appendToken [] token
  | c :: cs, token =>
    if c = '(' then appendToken [] token ++ ['('] :: tokenizeLoop cs []
    else if c = ')' then appendToken [] token ++ [')'] :: tokenizeLoop cs []
    else if c = '\'' then appendToken [] token ++ ['\''] :: tokenizeLoop cs []
    else if c = ' ' then appendToken [] token ++ tokenizeLoop cs []
    else tokenizeLoop cs (token ++ [c])

/-- Go `unicode.IsSpace`: the Unicode White_Space property, the set of
characters that `strings.TrimSpace` trims — tab, LF, vertical tab, form
feed, CR, space, NEL, NBSP, and the higher White_Space code points. -/
def isGoSpace (c : Char) : Bool :=
  c.toNat = 0x9 || c.toNat = 0xA || c.toNat = 0xB || c.toNat = 0xC ||
  c.toNat = 0xD || c.toNat = 0x20 || c.toNat = 0x85 || c.toNat = 0xA0 ||
  c.toNat = 0x1680 || (0x2000 ≤ c.toNat && c.toNat ≤ 0x200A) ||
  c.toNat = 0x2028 || c.toNat = 0x2029 || c.toNat = 0x202F ||
  c.toNat = 0x205F || c.toNat = 0x3000

/-- Go `strings.TrimSpace`: remove leading and trailing White_Space
characters (`isGoSpace`). -/
def trimSpace (s : Str) : Str :=
  ((s.dropWhile isGoSpace).reverse.dropWhile isGoSpace).reverse

/-- Go `tokenize`: trim, then run the character loop with an empty pending
token. -/
def tokenize (s : Str) : List Str :=
  tokenizeLoop (trimSpace s) []

/-- An unsigned decimal literal: nonempty and all digits. -/
def parseNatDigits (s : Str) : Option Nat :=
  if !s.isEmpty && s.all Char.isDigit then some (digitsToNat s) else none

/-- Go `strconv.Atoi`: optional sign then decimal digits.  Go additionally
rejects values overflowing 64-bit int; integers are modelled as unbounded
here, matching the spec's "i64 or equivalent" idealization. -/
def atoi (s : Str) : Option Int :=
  match s with
  | '+' :: r => (parseNatDigits r).map (fun k => Int.ofNat k)
  | '-' :: r => (parseNatDigits r).map (fun k => -(Int.ofNat k))
  | _ => (parseNatDigits s).map (fun k => Int.ofNat k)

/-- The list loop of the `(` case of Go `parseSExpression`, parameterized by
the sub-expression routine `p`.  The fuel bounds the number of loop
iterations; each iteration consumes at least one token, and every caller
passes `length + 1`, so fuel exhaustion is unreachable. -/
def parseListAux (p : List Str → Option (Except String (Value × List Str))) :
    Nat → List Str → List Value → Option (Except String (Value × List Str))
  | 0, _, _ => none
  | m + 1, ts, acc =>
    match ts with
    | [] => some (.error "unmatched parenthesis")
    | t :: r =>
      if t = [')'] then some (.ok (.list acc, r))
      else
        match p ts with
        | some (.ok (e, r2)) => parseListAux p m r2 (acc ++ [e])
        | other => other

/-- Go `parseSExpression` over the remaining tokens, returning the parsed
expression and the unconsumed tokens.  Past the end of the tokens it
returns nil without consuming (as Go does with `p.pos >= len`).  The fuel
bounds the recursion depth; each recursive call consumes a token first, so
`length + 1` always suffices. -/
def parseSExpression : Nat → List Str → Option (Except String (Value × List Str))
  | 0, _ => none
  | _ + 1, [] => some (.ok (.nil, []))
  | n + 1, t :: rest =>
    if t = ['\''] then
      match parseSExpression n rest with
      | some (.ok (e, r)) => some (.ok (.list [.sym "quote".toList, e], r))
      | other => other
    else if t = ['('] then parseListAux (parseSExpression n) (rest.length + 1) rest []
    else if t = [')'] then some (.error "unexpected )")
    else
      some (.ok ((match atoi t with
                  | some num => .int num
                  | none => .sym t), rest))

/-- Go `readSExpression`: tokenize, parse one expression, and reject
leftover tokens. -/
def readSExpression (s : Str) : Outcome Value :=
  let tokens := tokenize s
  if tokens.isEmpty then .ok .nil
  else
    match parseSExpression (tokens.length + 1) tokens with
    | none => .fuel
    | some (.error msg) => .panic msg
    | some (.ok (v, rest)) =>
      if rest.isEmpty then .ok v else .panic "extra tokens after parse"

/-- The default branch of Go `myApplyAtom`: look up the (exact) name in the
global map; it must hold a slice (the `[formals, body...]` designator),
which is applied over a snapshot of the global map. -/
def applyUserFunction (ev : Ev) (fnSym : Str) (args : List Value) (g : Alist) : Res :=
  match g fnSym with
  | none => (.panic ("Unknown function: " ++ String.mk fnSym), g)
  | some fnDef =>
    match fnDef with
    | .list lambdaBody => myApplyLambda ev lambdaBody args g g
    | _ => (.panic ("Invalid function definition for: " ++ String.mk fnSym), g)

/-- Go `myApplyAtom`: the built-in primitive table (dispatched on the
uppercased name, in source order), falling through to user-defined
functions.  The printing side effect of PRINT is dropped; its return value
is kept. -/
def myApplyAtom (ev : Ev) (fnSym : Str) (args : List Value) (env : OEnv)
    (g : Alist) (fullyEvaluated : Bool) : Res :=
  let _ := fullyEvaluated
  let up := upper fnSym
  if up = "CAR".toList then
    match args with
    | [x] =>
      (match x with
       | .list (h :: _) => (.ok h, g)
       | _ => (.ok .nil, g))
    | _ => (.panic "car expects 1 argument", g)
  else if up = "CDR".toList then
    match args with
    | [x] =>
      (match x with
       | .list (_ :: t0 :: t) => (.ok (.list (t0 :: t)), g)
       | _ => (.ok .nil, g))
    | _ => (.panic "cdr expects 1 argument", g)
  else if up = "CONS".toList then
    match args with
    | [a, b] =>
      (match b with
       | .nil => (.ok (.list [a]), g)
       | .list l => (.ok (.list (a :: l)), g)
       | _ => (.ok (.list [a, b]), g))
    | _ => (.panic "cons expects 2 arguments", g)
  else if up = "EQ".toList then
    match args with
    | [x, y] =>
      if isNil x && isNil y then (.ok (.sym "T".toList), g)
      else
        (match x with
         | .sym xs =>
           (match y with
            | .sym ys =>
              if upper xs = upper ys then (.ok (.sym "T".toList), g) else (.ok .nil, g)
            | _ => (.ok .nil, g))
         | .int xn =>
           (match y with
            | .int yn => if xn = yn then (.ok (.sym "T".toList), g) else (.ok .nil, g)
            | _ => (.ok .nil, g))
         | _ => (.ok .nil, g))
    | _ => (.panic "eq expects 2 arguments", g)
  else if up = "EQUAL".toList then
    match args with
    | [x, y] => if equalp x y then (.ok (.sym "T".toList), g) else (.ok .nil, g)
    | _ => (.panic "equal expects 2 arguments", g)
  else if up = "ATOM".toList then
    match args with
    | [x] =>
      (match x with
       | .list _ => (.ok .nil, g)
       | _ => (.ok (.sym "T".toList), g))
    | _ => (.panic "atom expects 1 argument", g)
  else if up = "NULL".toList then
    match args with
    | [x] => if isNil x then (.ok (.sym "T".toList), g) else (.ok .nil, g)
    | _ => (.panic "null expects 1 argument", g)
  else if up = "LISTP".toList then
    match args with
    | [x] =>
      (match x with
       | .list _ => (.ok (boolToT true), g)
       | _ => (.ok (boolToT false), g))
    | _ => (.panic "listp expects 1 argument", g)
  else if up = "SYMBOLP".toList then
    match args with
    | [x] => (.ok (boolToT x.isSym), g)
    | _ => (.panic "symbolp expects 1 argument", g)
  else if up = "STRINGP".toList then
    match args with
    | [x] => (.ok (boolToT x.isSym), g)
    | _ => (.panic "stringp expects 1 argument", g)
  else if up = "NUMBERP".toList then
    match args with
    | [x] =>
      (match x with
       | .int _ => (.ok (boolToT true), g)
       | _ => (.ok (boolToT false), g))
    | _ => (.panic "numberp expects 1 argument", g)
  else if up = "PRINT".toList then
    match args with
    | [x] => (.ok x, g)
    | _ => (.panic "print expects 1 argument", g)
  else if up = "+".toList then
    match sumInts args 0 with
    | some n => (.ok (.int n), g)
    | none => (.panic "+ expects integers", g)
  else if up = "-".toList then
    match args with
    | [] => (.panic "- expects at least one argument", g)
    | first :: rest =>
      match first with
      | .int n =>
        if rest.isEmpty then (.ok (.int (-n)), g)
        else
          match subInts rest n with
          | some r => (.ok (.int r), g)
          | none => (.panic "- expects integers", g)
      | _ => (.panic "- expects integers", g)
  else if up = "*".toList then
    match prodInts args 1 with
    | some n => (.ok (.int n), g)
    | none => (.panic "* expects integers", g)
  else if up = "/".toList then
    match args with
    | first :: a2 :: rest =>
      (match first with
       | .int n =>
         (match divInts (a2 :: rest) n with
          | .ok r => (.ok (.int r), g)
          | .error msg => (.panic msg, g))
       | _ => (.panic "/ expects integers", g))
    | _ => (.panic "/ expects at least two arguments", g)
  else if up = "<".toList then
    match args with
    | [x, y] =>
      (match x, y with
       | .int a, .int b => (.ok (boolToT (a < b)), g)
       | _, _ => (.panic "< expects integers", g))
    | _ => (.panic "< expects exactly two arguments", g)
  else if up = ">".toList then
    match args with
    | [x, y] =>
      (match x, y with
       | .int a, .int b => (.ok (boolToT (a > b)), g)
       | _, _ => (.panic "> expects integers", g))
    | _ => (.panic "> expects exactly two arguments", g)
  else if up = "1+".toList then
    match args with
    | [x] =>
      (match x with
       | .int n => (.ok (.int (n + 1)), g)
       | _ => (.panic "1+ expects an integer", g))
    | _ => (.panic "1+ expects one argument", g)
  else if up = "1-".toList then
    match args with
    | [x] =>
      (match x with
       | .int n => (.ok (.int (n - 1)), g)
       | _ => (.panic "1- expects an integer", g))
    | _ => (.panic "1- expects one argument", g)
  else if up = "MOD".toList then
    match args with
    | [x, y] =>
      (match x, y with
       | .int a, .int b =>
         if b = 0 then (.panic "mod by zero", g) else (.ok (.int (Int.tmod a b)), g)
       | _, _ => (.panic "mod expects integers", g))
    | _ => (.panic "mod expects exactly 2 arguments", g)
  else if up = "FLOOR".toList then
    match args with
    | [x] =>
      (match x with
       | .int n => (.ok (.int n), g)
       | .sym s =>
         (match parseFloatFloor s with
          | some n => (.ok (.int n), g)
          | none => (.panic "floor expects a number", g))
       | _ => (.panic "floor expects a number", g))
    | [x, y] =>
      (match x, y with
       | .int a, .int b =>
         if b = 0 then (.panic "division by zero", g)
         else (.ok (.int (Int.tdiv a b)), g)
       | _, _ => (.panic "floor expects integers when given two arguments", g))
    | _ => (.panic "floor expects one or two arguments", g)
  else if up = "=".toList then
    match args with
    | [x, y] =>
      (match x, y with
       | .int a, .int b =>
         if a = b then (.ok (.sym "T".toList), g) else (.ok .nil, g)
       | _, _ => (.panic "= expects integers", g))
    | _ => (.panic "= expects exactly 2 arguments", g)
  else if up = "LIST".toList then (.ok (.list args), g)
  else if up = "ZEROP".toList then
    match args with
    | [x] =>
      (match x with
       | .int n => (.ok (boolToT (n = 0)), g)
       | _ => (.panic "zerop expects an integer", g))
    | _ => (.panic "zerop expects 1 argument", g)
  else if up = "ELEM".toList then
    match args with
    | [item, l] =>
      (match l with
       | .list lst =>
         if lst.any (fun v => equalp v item) then (.ok (.sym "T".toList), g)
         else (.ok .nil, g)
       | _ => (.ok .nil, g))
    | _ => (.panic "elem expects 2 arguments", g)
  else if up = "LAMBDA".toList then (.ok (.list args), g)
  else if up = "IF".toList then
    match args with
    | [c, tb] =>
      (match ev c env g with
       | (.ok condition, g1) => if isNil condition then (.ok .nil, g1) else ev tb env g1
       | r => r)
    | [c, tb, eb] =>
      (match ev c env g with
       | (.ok condition, g1) => if isNil condition then ev eb env g1 else ev tb env g1
       | r => r)
    | _ => (.panic "if expects (if condition then [else])", g)
  else applyUserFunction ev fnSym args g

/-- Go `myApply`: special forms dispatched on the uppercased head name in
source order; any other head evaluates the operands eagerly and goes to
`myApplyAtom`. -/
def myApply (ev : Ev) (fnSym : Str) (args : List Value) (env : OEnv) (g : Alist) : Res :=
  let up := upper fnSym
  if up = "QUOTE".toList then
    match args with
    | [a] => (.ok a, g)
    | _ => (.panic "quote expects exactly one argument", g)
  else if up = "COND".toList then myEvalCond ev args env g
  else if up = "DEFUN".toList then myEvalDefun args g
  else if up = "SETQ".toList then
    match args with
    | [v0, e] =>
      (match v0 with
       | .sym varName => myEvalSetq ev varName e g
       | _ => (.panic "setq: first argument must be a symbol", g))
    | _ => (.panic "setq expects 2 arguments", g)
  else if up = "EVAL".toList then
    match args with
    | [a] =>
      (match ev a env g with
       | (.ok v, g1) => ev v env g1
       | r => r)
    | _ => (.panic "eval expects 1 argument", g)
  else if up = "APPLY".toList then
    match args with
    | [fe, ae] =>
      (match ev fe env g with
       | (.ok fnVal, g1) =>
         (match fnVal with
          | .sym fnName =>
            (match ev ae env g1 with
             | (.ok argVal, g2) => myApplyAtom ev fnName (toList argVal) env g2 false
             | r => r)
          | _ => (.panic "apply expects a function symbol as first arg", g1))
       | r => r)
    | _ => (.panic "apply expects exactly 2 arguments", g)
  else if up = "AND".toList then evalAndArgs ev args env g
  else if up = "OR".toList then evalOrArgs ev args env g
  else if up = "NOT".toList then
    match args with
    | [a] =>
      (match ev a env g with
       | (.ok v, g1) => if isNil v then (.ok (.sym "T".toList), g1) else (.ok .nil, g1)
       | r => r)
    | _ => (.panic "not expects 1 argument", g)
  else if up = "LET*".toList then
    match args with
    | bArg :: b0 :: body =>
      (match bArg with
       | .list bindings =>
         (match letStarBindings ev bindings (baseAlist env g) g with
          | (.ok localAlist, g1) => myEvalList ev (b0 :: body) (some localAlist) g1
          | (.panic msg, g1) => (.panic msg, g1)
          | (.fuel, g1) => (.fuel, g1))
       | _ => (.panic "let*: first argument must be a list of bindings", g))
    | _ => (.panic "let* expects at least ((var val)...) and a body", g)
  else if up = "IF".toList then
    match args with
    | [c, tb] =>
      (match ev c env g with
       | (.ok condition, g1) => if isNil condition then (.ok .nil, g1) else ev tb env g1
       | r => r)
    | [c, tb, eb] =>
      (match ev c env g with
       | (.ok condition, g1) => if isNil condition then ev eb env g1 else ev tb env g1
       | r => r)
    | _ => (.panic "if expects (if condition then [else])", g)
  else if up = "LET".toList then
    match args with
    | bArg :: b0 :: body =>
      (match bArg with
       | .list bindings =>
         let localAlist := baseAlist env g
         (match letBindings ev bindings env g with
          | (.ok pairs, g1) =>
            myEvalList ev (b0 :: body)
              (some (pairs.foldl (fun a p => a.set p.1 p.2) localAlist)) g1
          | (.panic msg, g1) => (.panic msg, g1)
          | (.fuel, g1) => (.fuel, g1))
       | _ => (.panic "let: first argument must be a list of bindings", g))
    | _ => (.panic "let expects ((var val)...) and a body", g)
  else
    match myEvalArgs ev args env g with
    | (.ok evaledArgs, g1) => myApplyAtom ev fnSym evaledArgs env g1 true
    | (.panic msg, g1) => (.panic msg, g1)
    | (.fuel, g1) => (.fuel, g1)

/-- Go `myEval`: atoms go to `myEvalAtom`, the empty list evaluates to nil,
a list headed by a symbol goes to `myApply`, and a list headed by anything
else panics.  The fuel decreases once per nesting level. -/
def myEval : Nat → Value → OEnv → Alist → Res
  | 0, _, _, g => (.fuel, g)
  | n + 1, expr, env, g =>
    match expr with
    | .sym _ | .int _ => (.ok (myEvalAtom expr env g), g)
    | .list [] => (.ok .nil, g)
    | .list (h :: rest) =>
      (match h with
       | .sym fnSym => myApply (myEval n) fnSym rest env g
       | _ => (.panic "Invalid function: must be a symbol", g))
    | .nil => (.ok .nil, g)

/-- Shorthand for building symbol values in concrete programs. -/
def S (s : String) : Value := .sym s.toList

/-- Shorthand for building list values in concrete programs. -/
def L (xs : List Value) : Value := .list xs

/-- The names handled by the special-form switch of Go `myApply`, in source
order (an uppercased head name outside this list takes the default eager
branch). -/
def isSpecialFormName (s : Str) : Bool :=
  s = "QUOTE".toList || s = "COND".toList || s = "DEFUN".toList || s = "SETQ".toList ||
  s = "EVAL".toList || s = "APPLY".toList || s = "AND".toList || s = "OR".toList ||
  s = "NOT".toList || s = "LET*".toList || s = "IF".toList || s = "LET".toList

/-- The names handled by the built-in switch of Go `myApplyAtom`, in source
order (an uppercased name outside this list goes to the user-defined
function lookup). -/
def isBuiltinName (s : Str) : Bool :=
  s = "CAR".toList ||
  s = "CDR".toList ||
  s = "CONS".toList ||
  s = "EQ".toList ||
  s = "EQUAL".toList ||
  s = "ATOM".toList ||
  s = "NULL".toList ||
  s = "LISTP".toList ||
  s = "SYMBOLP".toList ||
  s = "STRINGP".toList ||
  s = "NUMBERP".toList ||
  s = "PRINT".toList ||
  s = "+".toList ||
  s = "-".toList ||
  s = "*".toList ||
  s = "/".toList ||
  s = "<".toList ||
  s = ">".toList ||
  s = "1+".toList ||
  s = "1-".toList ||
  s = "MOD".toList ||
  s = "FLOOR".toList ||
  s = "=".toList ||
  s = "LIST".toList ||
  s = "ZEROP".toList ||
  s = "ELEM".toList ||
  s = "LAMBDA".toList ||
  s = "IF".toList

/-- A head symbol that is not a special form takes the default branch of Go
`myApply`: evaluate every operand eagerly, then apply the name. -/
theorem myApply_default (ev : Ev) (f : Str) (args : List Value) (env : OEnv) (g : Alist)
    (h : isSpecialFormName (upper f) = false) :
    myApply ev f args env g =
      (match myEvalArgs ev args env g with
       | (.ok evaledArgs, g1) => myApplyAtom ev f evaledArgs env g1 true
       | (.panic msg, g1) => (.panic msg, g1)
       | (.fuel, g1) => (.fuel, g1)) := by
  simp only [isSpecialFormName, Bool.or_eq_false_iff, decide_eq_false_iff_not] at h
  obtain ⟨⟨⟨⟨⟨⟨⟨⟨⟨⟨⟨h1, h2⟩, h3⟩, h4⟩, h5⟩, h6⟩, h7⟩, h8⟩, h9⟩, h10⟩, h11⟩, h12⟩ := h
  simp only [myApply, if_neg h1, if_neg h2, if_neg h3, if_neg h4, if_neg h5, if_neg h6,
    if_neg h7, if_neg h8, if_neg h9, if_neg h10, if_neg h11, if_neg h12]

/-- A name that is not a built-in primitive takes the default branch of Go
`myApplyAtom`: the user-defined function lookup in the global map. -/
theorem myApplyAtom_default (ev : Ev) (f : Str) (args : List Value) (env : OEnv)
    (g : Alist) (b : Bool) (h : isBuiltinName (upper f) = false) :
    myApplyAtom ev f args env g b = applyUserFunction ev f args g := by
  simp only [isBuiltinName, Bool.or_eq_false_iff, decide_eq_false_iff_not] at h
  obtain ⟨⟨⟨⟨⟨⟨⟨⟨⟨⟨⟨⟨⟨⟨⟨⟨⟨⟨⟨⟨⟨⟨⟨⟨⟨⟨⟨h1, h2⟩, h3⟩, h4⟩, h5⟩, h6⟩, h7⟩, h8⟩, h9⟩, h10⟩, h11⟩, h12⟩, h13⟩, h14⟩, h15⟩, h16⟩, h17⟩, h18⟩, h19⟩, h20⟩, h21⟩, h22⟩, h23⟩, h24⟩, h25⟩, h26⟩, h27⟩, h28⟩ := h
  simp only [myApplyAtom, if_neg h1, if_neg h2, if_neg h3, if_neg h4, if_neg h5, if_neg h6, if_neg h7, if_neg h8, if_neg h9, if_neg h10, if_neg h11, if_neg h12, if_neg h13, if_neg h14, if_neg h15, if_neg h16, if_neg h17, if_neg h18, if_neg h19, if_neg h20, if_neg h21, if_neg h22, if_neg h23, if_neg h24, if_neg h25, if_neg h26, if_neg h27, if_neg h28]

/-- Any casing of LAMBDA in `myApplyAtom` returns the (already evaluated)
argument list unchanged. -/
theorem myApplyAtom_lambda (ev : Ev) (f : Str) (args : List Value) (env : OEnv)
    (g : Alist) (b : Bool) (h : upper f = "LAMBDA".toList) :
    myApplyAtom ev f args env g b = (.ok (.list args), g) := by
  simp [myApplyAtom, h]

/-- C4: evaluating a list whose head is not a symbol — in particular a list
with the empty list in operator position — panics with the Go message
"Invalid function: must be a symbol" (the spec's InvalidOperator), for every
such expression, every environment, and any available fuel. -/
theorem eval_nonsymbol_head_invalid_operator (n : Nat) (h : Value) (rest : List Value)
    (env : OEnv) (g : Alist) (hh : h.isSym = false) :
    myEval (n + 1) (.list (h :: rest)) env g =
      (.panic "Invalid function: must be a symbol", g) := by
  cases h with
  | sym s => simp [Value.isSym] at hh
  | nil => rfl
  | int m => rfl
  | list xs => rfl

/-- Witness for `eval_nonsymbol_head_invalid_operator` at the concrete
expression `(())`: an empty list used in operator position. -/
theorem eval_nonsymbol_head_invalid_operator_witness :
    (Value.list []).isSym = false ∧
    myEval 1 (.list [.list []]) none Alist.empty =
      (.panic "Invalid function: must be a symbol", Alist.empty) :=
  ⟨rfl, eval_nonsymbol_head_invalid_operator 0 (.list []) [] none Alist.empty rfl⟩

/-- C9: reading "()" yields the empty list value, which is a different value
from nil: `isNil` is false on it, so NULL reports it non-nil and IF / COND /
AND / OR treat it as truthy, and it prints as "()" while nil prints "NIL". -/
theorem empty_list_value_distinct_from_nil :
    readSExpression "()".toList = .ok (.list []) ∧
    (Value.list [] ≠ Value.nil) ∧
    isNil (.list []) = false ∧
    toLispString (.list []) = "()".toList ∧
    toLispString Value.nil = "NIL".toList ∧
    (myEval 9 (L [S "null", L [S "quote", L []]]) none Alist.empty).1 = .ok .nil ∧
    (myEval 9 (L [S "if", L [S "quote", L []], .int 1, .int 2]) none Alist.empty).1
      = .ok (.int 1) ∧
    (myEval 9 (L [S "cond", L [L [S "quote", L []], .int 5]]) none Alist.empty).1
      = .ok (.int 5) ∧
    (myEval 9 (L [S "and", L [S "quote", L []]]) none Alist.empty).1 = .ok (S "T") ∧
    (myEval 9 (L [S "or", L [S "quote", L []]]) none Alist.empty).1 = .ok (S "T") := by
  refine ⟨by decide, by decide, by decide, by decide, by decide, by decide, by decide,
    by decide, by decide, by decide⟩

/-- C10: in the APPLY special form, once the function expression has
evaluated to a symbol and the argument expression to a value v, the call
proceeds with argument list `toList v`; and `toList` sends nil to the empty
argument list, keeps lists, and wraps any other value into a one-element
list (so a non-nil non-list argument does not fail). -/
theorem apply_wraps_nonlist_argument (n : Nat) (name fname : Str) (fe ae av : Value)
    (env : OEnv) (g g1 g2 : Alist)
    (hname : upper name = "APPLY".toList)
    (hfe : myEval n fe env g = (.ok (.sym fname), g1))
    (hae : myEval n ae env g1 = (.ok av, g2)) :
    myEval (n + 1) (.list [.sym name, fe, ae]) env g =
      myApplyAtom (myEval n) fname (toList av) env g2 false ∧
    toList .nil = [] ∧
    (∀ xs, toList (.list xs) = xs) ∧
    (∀ v, v ≠ .nil → (∀ xs, v ≠ .list xs) → toList v = [v]) := by
  refine ⟨?_, rfl, fun xs => rfl, ?_⟩
  · simp only [myEval]
    simp only [myApply, hname, if_true]
    simp only [hfe, hae]
    rw [if_neg (by decide), if_neg (by decide), if_neg (by decide), if_neg (by decide),
      if_neg (by decide)]
  · intro v h1 h2
    cases v with
    | nil => exact absurd rfl h1
    | list xs => exact absurd rfl (h2 xs)
    | sym s => rfl
    | int m => rfl

/-- Witness for `apply_wraps_nonlist_argument`: `(apply 'list 5)` wraps the
integer 5 into a one-element argument list and yields `(5)`, and
`(apply 'list nil)` applies to zero arguments and yields `()`. -/
theorem apply_wraps_nonlist_argument_witness :
    (upper "apply".toList = "APPLY".toList) ∧
    myEval 6 (L [S "apply", L [S "quote", S "list"], .int 5]) none Alist.empty =
      myApplyAtom (myEval 5) "list".toList (toList (.int 5)) none Alist.empty false ∧
    (myEval 6 (L [S "apply", L [S "quote", S "list"], .int 5]) none Alist.empty).1
      = .ok (L [.int 5]) ∧
    (myEval 6 (L [S "apply", L [S "quote", S "list"], S "nil"]) none Alist.empty).1
      = .ok (L []) :=
  ⟨by decide,
   (apply_wraps_nonlist_argument 5 "apply".toList "list".toList (L [S "quote", S "list"])
     (.int 5) (.int 5) none Alist.empty Alist.empty Alist.empty (by decide) rfl rfl).1,
   by decide, by decide⟩

/-- C1 counterexample: after `(setq foo 7)` the differently-cased symbol FOO
does not evaluate to 7 but self-evaluates, and after `(defun bar () 1)` the
call `(BAR)` panics UnknownFunction while `(bar)` returns 1 — so lookup of
setq/defun bindings is not case-insensitive. -/
theorem symbol_lookup_not_case_insensitive :
    (myEval 5 (L [S "setq", S "foo", .int 7]) none Alist.empty).1 = .ok (.int 7) ∧
    (myEval 5 (S "foo") none (myEval 5 (L [S "setq", S "foo", .int 7]) none Alist.empty).2).1
      = .ok (.int 7) ∧
    (myEval 5 (S "FOO") none (myEval 5 (L [S "setq", S "foo", .int 7]) none Alist.empty).2).1
      = .ok (S "FOO") ∧
    ((Outcome.ok (S "FOO") : Outcome Value) ≠ .ok (.int 7)) ∧
    (myEval 5 (L [S "defun", S "bar", L [], .int 1]) none Alist.empty).1 = .ok (S "bar") ∧
    (myEval 9 (L [S "bar"]) none
      (myEval 5 (L [S "defun", S "bar", L [], .int 1]) none Alist.empty).2).1 = .ok (.int 1) ∧
    (myEval 9 (L [S "BAR"]) none
      (myEval 5 (L [S "defun", S "bar", L [], .int 1]) none Alist.empty).2).1
      = .panic "Unknown function: BAR" := by
  refine ⟨by decide, by decide, by decide, by decide, by decide, by decide, by decide⟩

/-- C1 amended: lookup of setq/defun bindings is by exact spelling.  A name
stored under its original spelling is found when evaluated with exactly that
spelling; any other spelling of the same name (same uppercasing) is not
found: as a value it self-evaluates, and in operator position it panics
with UnknownFunction. -/
theorem symbol_lookup_exact_spelling (g : Alist) (name s : Str) (v : Value) (n : Nat)
    (env : OEnv)
    (hT : upper name ≠ "T".toList) (hN : upper name ≠ "NIL".toList)
    (hsT : upper s ≠ "T".toList) (hsN : upper s ≠ "NIL".toList)
    (hcase : upper s = upper name)
    (hdiff : s ≠ name) (hunbound : g s = none)
    (hnsf : isSpecialFormName (upper s) = false)
    (hnb : isBuiltinName (upper s) = false) :
    myEvalAtom (.sym name) none (g.set name v) = v ∧
    myEvalAtom (.sym s) none (g.set name v) = .sym s ∧
    myEval (n + 1) (.list [.sym s]) env (g.set name v) =
      (.panic ("Unknown function: " ++ String.mk s), g.set name v) := by
  have hT2 : upper name ≠ ['T'] := by simpa using hT
  have hN2 : upper name ≠ ['N', 'I', 'L'] := by simpa using hN
  have hsT2 : upper s ≠ ['T'] := by simpa using hsT
  have hsN2 : upper s ≠ ['N', 'I', 'L'] := by simpa using hsN
  have _ := hcase
  refine ⟨?_, ?_, ?_⟩
  · simp [myEvalAtom, hT2, hN2, baseAlist, Alist.set]
  · simp [myEvalAtom, hsT2, hsN2, baseAlist, Alist.set, hdiff, hunbound]
  · simp only [myEval]
    rw [myApply_default _ _ _ _ _ hnsf]
    simp only [myEvalArgs]
    rw [myApplyAtom_default _ _ _ _ _ _ hnb]
    simp [applyUserFunction, Alist.set, hdiff, hunbound]

/-- Witness for `symbol_lookup_exact_spelling` with the binding foo ↦ 7 and
the alternative casing FOO. -/
theorem symbol_lookup_exact_spelling_witness :
    upper "FOO".toList = upper "foo".toList ∧ "FOO".toList ≠ "foo".toList ∧
    (myEvalAtom (.sym "foo".toList) none (Alist.empty.set "foo".toList (.int 7)) = .int 7 ∧
     myEvalAtom (.sym "FOO".toList) none (Alist.empty.set "foo".toList (.int 7))
       = .sym "FOO".toList ∧
     myEval 1 (.list [.sym "FOO".toList]) none (Alist.empty.set "foo".toList (.int 7)) =
       (.panic ("Unknown function: " ++ String.mk "FOO".toList),
        Alist.empty.set "foo".toList (.int 7))) :=
  ⟨by decide, by decide,
   symbol_lookup_exact_spelling Alist.empty "foo".toList "FOO".toList (.int 7) 0 none
     (by decide) (by decide) (by decide) (by decide) (by decide) (by decide) rfl
     (by decide) (by decide)⟩

/-- C3 counterexample: evaluating `(lambda 'a 'b)` returns `(a b)` — the
operands were evaluated by the eager path before LAMBDA returned them, not
returned unevaluated as the claim states. -/
theorem lambda_evaluates_operands :
    (myEval 5 (L [S "lambda", L [S "quote", S "a"], L [S "quote", S "b"]]) none Alist.empty).1
      = .ok (L [S "a", S "b"]) ∧
    (L [S "a", S "b"] ≠ L [L [S "quote", S "a"], L [S "quote", S "b"]]) :=
  ⟨by decide, by decide⟩

/-- C3 amended: evaluating a lambda expression returns the list of its
operands after each has been evaluated by the standard eager path — still
with no captured environment (the result is bare data). -/
theorem lambda_returns_evaluated_operands (n : Nat) (name : Str) (ops : List Value)
    (env : OEnv) (g g1 : Alist) (vs : List Value)
    (hname : upper name = "LAMBDA".toList)
    (hargs : myEvalArgs (myEval n) ops env g = (.ok vs, g1)) :
    myEval (n + 1) (.list (.sym name :: ops)) env g = (.ok (.list vs), g1) := by
  simp only [myEval]
  rw [myApply_default _ _ _ _ _ (by rw [hname]; decide)]
  simp only [hargs]
  exact myApplyAtom_lambda _ _ _ _ _ _ hname

/-- Witness for `lambda_returns_evaluated_operands` at `(lambda 'a)`. -/
theorem lambda_returns_evaluated_operands_witness :
    upper "lambda".toList = "LAMBDA".toList ∧
    myEvalArgs (myEval 3) [L [S "quote", S "a"]] none Alist.empty = (.ok [S "a"], Alist.empty) ∧
    myEval 4 (L [S "lambda", L [S "quote", S "a"]]) none Alist.empty
      = (.ok (L [S "a"]), Alist.empty) :=
  ⟨by decide, rfl,
   lambda_returns_evaluated_operands 3 "lambda".toList [L [S "quote", S "a"]] none
     Alist.empty Alist.empty [S "a"] (by decide) rfl⟩

/-- C5 counterexample: `(car '5)` and `(cdr '5)` evaluate to nil — a value,
not a TypeError panic — although the operand is a non-list non-nil value. -/
theorem car_cdr_nonlist_no_type_error :
    (myEval 5 (L [S "car", L [S "quote", .int 5]]) none Alist.empty).1 = .ok .nil ∧
    (myEval 5 (L [S "cdr", L [S "quote", .int 5]]) none Alist.empty).1 = .ok .nil ∧
    (∀ msg, (Outcome.ok (Value.nil) : Outcome Value) ≠ .panic msg) :=
  ⟨by decide, by decide, fun _ h => Outcome.noConfusion h⟩

/-- C5 amended: car and cdr return nil on every operand that is not a list
(integers, symbols and nil alike) instead of raising a TypeError, while a
wrong argument count still panics with the arity message. -/
theorem car_cdr_nonlist_returns_nil (ev : Ev) (f1 f2 : Str) (x : Value)
    (args : List Value) (env : OEnv) (g : Alist) (b : Bool)
    (h1 : upper f1 = "CAR".toList) (h2 : upper f2 = "CDR".toList)
    (hx : ∀ xs, x ≠ .list xs) (hlen : args.length ≠ 1) :
    myApplyAtom ev f1 [x] env g b = (.ok .nil, g) ∧
    myApplyAtom ev f2 [x] env g b = (.ok .nil, g) ∧
    myApplyAtom ev f1 args env g b = (.panic "car expects 1 argument", g) ∧
    myApplyAtom ev f2 args env g b = (.panic "cdr expects 1 argument", g) := by
  refine ⟨?_, ?_, ?_, ?_⟩
  · cases x with
    | list xs => exact absurd rfl (hx xs)
    | nil => simp [myApplyAtom, h1]
    | sym s => simp [myApplyAtom, h1]
    | int m => simp [myApplyAtom, h1]
  · cases x with
    | list xs => exact absurd rfl (hx xs)
    | nil => simp [myApplyAtom, h2]
    | sym s => simp [myApplyAtom, h2]
    | int m => simp [myApplyAtom, h2]
  · match args, hlen with
    | [], _ => simp [myApplyAtom, h1]
    | [a], h => exact absurd rfl h
    | a :: b2 :: r, _ => simp [myApplyAtom, h1]
  · match args, hlen with
    | [], _ => simp [myApplyAtom, h2]
    | [a], h => exact absurd rfl h
    | a :: b2 :: r, _ => simp [myApplyAtom, h2]

/-- Witness for `car_cdr_nonlist_returns_nil` with operand 5 and the empty
argument list. -/
theorem car_cdr_nonlist_returns_nil_witness :
    upper "car".toList = "CAR".toList ∧ upper "cdr".toList = "CDR".toList ∧
    ([] : List Value).length ≠ 1 ∧
    (myApplyAtom (myEval 0) "car".toList [.int 5] none Alist.empty true = (.ok .nil, Alist.empty) ∧
     myApplyAtom (myEval 0) "cdr".toList [.int 5] none Alist.empty true = (.ok .nil, Alist.empty) ∧
     myApplyAtom (myEval 0) "car".toList [] none Alist.empty true
       = (.panic "car expects 1 argument", Alist.empty) ∧
     myApplyAtom (myEval 0) "cdr".toList [] none Alist.empty true
       = (.panic "cdr expects 1 argument", Alist.empty)) :=
  ⟨by decide, by decide, by decide,
   car_cdr_nonlist_returns_nil (myEval 0) "car".toList "cdr".toList (.int 5) [] none
     Alist.empty true (by decide) (by decide) (fun xs h => Value.noConfusion h) (by decide)⟩

/-- C6 counterexample: `(setq x (+ (setq a 1) 'b))` fails with the type
panic of `+`, yet afterwards the global tier holds a ↦ 1 while it held
nothing before — a failing top-level expression does not leave the global
tier exactly as it was. -/
theorem failing_expression_leaves_partial_mutation :
    ((myEval 9 (L [S "setq", S "x", L [S "+", L [S "setq", S "a", .int 1],
        L [S "quote", S "b"]]]) none Alist.empty).1 = .panic "+ expects integers") ∧
    ((myEval 9 (L [S "setq", S "x", L [S "+", L [S "setq", S "a", .int 1],
        L [S "quote", S "b"]]]) none Alist.empty).2 "a".toList = some (.int 1)) ∧
    (Alist.empty "a".toList = none) := by
  refine ⟨by decide, by decide, rfl⟩

/-- C6 amended: each individual setq/defun is atomic — a setq stores its
variable exactly when its value expression succeeds (on failure it returns
the failure with the global exactly as the value expression left it, adding
nothing), and a defun stores its name exactly when its shape is well formed
(each malformed shape panics with the global unchanged).  A failing
top-level expression may still retain mutations made by completed inner
setq forms, as the counterexample shows. -/
theorem setq_defun_atomicity :
    (∀ n (name var : Str) e env g v g1, upper name = "SETQ".toList →
      myEval n e none g = (.ok v, g1) →
      myEval (n + 1) (.list [.sym name, .sym var, e]) env g = (.ok v, g1.set var v)) ∧
    (∀ n (name var : Str) e env g msg g1, upper name = "SETQ".toList →
      myEval n e none g = (.panic msg, g1) →
      myEval (n + 1) (.list [.sym name, .sym var, e]) env g = (.panic msg, g1)) ∧
    (∀ n (name fname : Str) formals b0 body env g, upper name = "DEFUN".toList →
      myEval (n + 1) (.list (.sym name :: .sym fname :: .list formals :: b0 :: body)) env g =
        (.ok (.sym fname), g.set fname (.list (.list formals :: b0 :: body)))) ∧
    (∀ n (name : Str) args env g, upper name = "DEFUN".toList → args.length < 3 →
      myEval (n + 1) (.list (.sym name :: args)) env g =
        (.panic "defun: must have (defun fname (args...) body...)", g)) ∧
    (∀ n (name : Str) a0 a1 b0 body env g, upper name = "DEFUN".toList → a0.isSym = false →
      myEval (n + 1) (.list (.sym name :: a0 :: a1 :: b0 :: body)) env g =
        (.panic "defun: first argument must be a symbol", g)) ∧
    (∀ n (name fname : Str) a1 b0 body env g, upper name = "DEFUN".toList →
      (∀ xs, a1 ≠ .list xs) →
      myEval (n + 1) (.list (.sym name :: .sym fname :: a1 :: b0 :: body)) env g =
        (.panic "defun: second argument must be a list of formals", g)) := by
  refine ⟨?_, ?_, ?_, ?_, ?_, ?_⟩
  · intro n name var e env g v g1 hname hok
    simp only [myEval, myApply, hname, if_true]
    rw [if_neg (by decide), if_neg (by decide), if_neg (by decide)]
    simp [myEvalSetq, hok]
  · intro n name var e env g msg g1 hname hpanic
    simp only [myEval, myApply, hname, if_true]
    rw [if_neg (by decide), if_neg (by decide), if_neg (by decide)]
    simp [myEvalSetq, hpanic]
  · intro n name fname formals b0 body env g hname
    simp only [myEval, myApply, hname, if_true]
    rw [if_neg (by decide), if_neg (by decide)]
    simp [myEvalDefun]
  · intro n name args env g hname hlen
    simp only [myEval, myApply, hname, if_true]
    rw [if_neg (by decide), if_neg (by decide)]
    match args, hlen with
    | [], _ => simp [myEvalDefun]
    | [a0], _ => simp [myEvalDefun]
    | [a0, a1], _ => simp [myEvalDefun]
    | a0 :: a1 :: a2 :: r, h => simp at h; omega
  · intro n name a0 a1 b0 body env g hname ha0
    simp only [myEval, myApply, hname, if_true]
    rw [if_neg (by decide), if_neg (by decide)]
    cases a0 with
    | sym s => simp [Value.isSym] at ha0
    | nil => simp [myEvalDefun]
    | int m => simp [myEvalDefun]
    | list xs => simp [myEvalDefun]
  · intro n name fname a1 b0 body env g hname ha1
    simp only [myEval, myApply, hname, if_true]
    rw [if_neg (by decide), if_neg (by decide)]
    cases a1 with
    | list xs => exact absurd rfl (ha1 xs)
    | nil => simp [myEvalDefun]
    | int m => simp [myEvalDefun]
    | sym s2 => simp [myEvalDefun]

/-- Witness for `setq_defun_atomicity` at concrete setq/defun forms. -/
theorem setq_defun_atomicity_witness :
    upper "setq".toList = "SETQ".toList ∧ upper "defun".toList = "DEFUN".toList ∧
    myEval 2 (L [S "car"]) none Alist.empty = (.panic "car expects 1 argument", Alist.empty) ∧
    (myEval 3 (L [S "setq", S "a", L [S "car"]]) none Alist.empty
      = (.panic "car expects 1 argument", Alist.empty)) ∧
    (myEval 2 (L [S "setq", S "a", .int 5]) none Alist.empty
      = (.ok (.int 5), Alist.empty.set "a".toList (.int 5))) ∧
    (myEval 1 (L [S "defun", S "f", L [S "x"], S "x"]) none Alist.empty
      = (.ok (S "f"), Alist.empty.set "f".toList (L [L [S "x"], S "x"]))) ∧
    (myEval 1 (L [S "defun", S "f"]) none Alist.empty
      = (.panic "defun: must have (defun fname (args...) body...)", Alist.empty)) :=
  ⟨by decide, by decide, rfl,
   setq_defun_atomicity.2.1 2 "setq".toList "a".toList (L [S "car"]) none Alist.empty
     "car expects 1 argument" Alist.empty (by decide) rfl,
   setq_defun_atomicity.1 1 "setq".toList "a".toList (.int 5) none Alist.empty
     (.int 5) Alist.empty (by decide) rfl,
   setq_defun_atomicity.2.2.1 0 "defun".toList "f".toList [S "x"] (S "x") [] none
     Alist.empty (by decide),
   setq_defun_atomicity.2.2.2.1 0 "defun".toList [S "f"] none Alist.empty
     (by decide) (by decide)⟩

/-- C2: applying a name that is no built-in primitive looks it up in the
global tier and evaluates the stored body in an environment built by
`bindFormals` from the current global tier overlaid with the
formal-to-argument bindings only.  The right-hand side never mentions the
caller environment, and the second conjunct states that independence
explicitly: the caller's local (let/let*) tier can never be seen by the
body, so free identifiers resolve against the parameters and the global
table only. -/
theorem user_function_call_env_from_global (ev : Ev) (f : Str) (args : List Value)
    (g : Alist) (formals : List Value) (b0 : Value) (body : List Value)
    (hnb : isBuiltinName (upper f) = false)
    (hdef : g f = some (.list (.list formals :: b0 :: body))) :
    (∀ env : OEnv, myApplyAtom ev f args env g true =
      (match bindFormals formals args g with
       | .error msg => (.panic msg, g)
       | .ok newAlist => myEvalList ev (b0 :: body) (some newAlist) g)) ∧
    (∀ env1 env2 : OEnv,
      myApplyAtom ev f args env1 g true = myApplyAtom ev f args env2 g true) := by
  have key : ∀ env : OEnv, myApplyAtom ev f args env g true =
      (match bindFormals formals args g with
       | .error msg => (.panic msg, g)
       | .ok newAlist => myEvalList ev (b0 :: body) (some newAlist) g) := by
    intro env
    rw [myApplyAtom_default _ _ _ _ _ _ hnb]
    simp [applyUserFunction, hdef, myApplyLambda]
  exact ⟨key, fun env1 env2 => (key env1).trans (key env2).symm⟩

/-- Witness for `user_function_call_env_from_global`: a function f with
formal x applied to 3 from a caller whose local tier binds x to 99 — the
body still sees the formal binding x ↦ 3. -/
theorem user_function_call_env_from_global_witness :
    isBuiltinName (upper "f".toList) = false ∧
    (Alist.empty.set "f".toList (L [L [S "x"], S "x"])) "f".toList
      = some (L [L [S "x"], S "x"]) ∧
    myApplyAtom (myEval 3) "f".toList [.int 3]
        (some (Alist.empty.set "x".toList (.int 99)))
        (Alist.empty.set "f".toList (L [L [S "x"], S "x"])) true =
      (match bindFormals [S "x"] [.int 3]
          (Alist.empty.set "f".toList (L [L [S "x"], S "x"])) with
       | .error msg => (.panic msg, Alist.empty.set "f".toList (L [L [S "x"], S "x"]))
       | .ok newAlist => myEvalList (myEval 3) [S "x"] (some newAlist)
           (Alist.empty.set "f".toList (L [L [S "x"], S "x"]))) ∧
    (myApplyAtom (myEval 3) "f".toList [.int 3]
        (some (Alist.empty.set "x".toList (.int 99)))
        (Alist.empty.set "f".toList (L [L [S "x"], S "x"])) true).1 = .ok (.int 3) :=
  ⟨by decide, rfl,
   (user_function_call_env_from_global (myEval 3) "f".toList [.int 3]
     (Alist.empty.set "f".toList (L [L [S "x"], S "x"])) [S "x"] (S "x") []
     (by decide) rfl).1 (some (Alist.empty.set "x".toList (.int 99))),
   by decide⟩

def isAtomChar (c : Char) : Bool := !(c = '(' || c = ')' || c = '\'' || c = ' ')

def isBoundary : Str → Bool
  | [] => true
  | c :: _ => !isAtomChar c

theorem head?_mem_str {l : Str} {c : Char} (h : l.head? = some c) : c ∈ l := by
  cases l with
  | nil => simp at h
  | cons x t => simp at h; subst h; exact List.mem_cons_self x t

theorem getLast?_mem_str {l : Str} {c : Char} (h : l.getLast? = some c) : c ∈ l := by
  have hm : c ∈ l.getLast? := by simp [h, Option.mem_def]
  obtain ⟨hne, heq⟩ := List.mem_getLast?_eq_getLast hm
  rw [heq]
  exact List.getLast_mem hne

theorem trimSpace_eq_self (s : Str)
    (h1 : ∀ c, s.head? = some c → isGoSpace c = false)
    (h2 : ∀ c, s.getLast? = some c → isGoSpace c = false) :
    trimSpace s = s := by
  have e1 : s.dropWhile isGoSpace = s := by
    cases s with
    | nil => rfl
    | cons c t =>
      have := h1 c rfl
      simp [List.dropWhile_cons, this]
  have e2 : s.reverse.dropWhile isGoSpace = s.reverse := by
    cases hrev : s.reverse with
    | nil => rfl
    | cons c t =>
      have hc : s.getLast? = some c := by
        rw [← List.head?_reverse, hrev]; rfl
      have := h2 c hc
      simp [List.dropWhile_cons, this]
  unfold trimSpace
  rw [e1, e2, List.reverse_reverse]

theorem isAtomChar_spec {c : Char} (h : isAtomChar c = true) :
    c ≠ '(' ∧ c ≠ ')' ∧ c ≠ '\'' ∧ c ≠ ' ' := by
  simp [isAtomChar] at h
  exact ⟨h.1.1.1, h.1.1.2, h.1.2, h.2⟩

theorem tokenizeLoop_run (a : Str) (rest : List Char) (cur : Str)
    (h : ∀ c ∈ a, isAtomChar c = true) :
    tokenizeLoop (a ++ rest) cur = tokenizeLoop rest (cur ++ a) := by
  induction a generalizing cur with
  | nil => simp
  | cons c t ih =>
    obtain ⟨n1, n2, n3, n4⟩ := isAtomChar_spec (h c (List.mem_cons_self c t))
    show tokenizeLoop (c :: (t ++ rest)) cur = _
    rw [tokenizeLoop]
    rw [if_neg n1, if_neg n2, if_neg n3, if_neg n4]
    rw [ih (cur ++ [c]) (fun x hx => h x (List.mem_cons_of_mem c hx))]
    simp

theorem tokenize_atom (t : Str) (rest : List Char) (ht : t ≠ [])
    (hc : ∀ c ∈ t, isAtomChar c = true) (hb : isBoundary rest = true) :
    tokenizeLoop (t ++ rest) [] = t :: tokenizeLoop rest [] := by
  rw [tokenizeLoop_run t rest [] hc]
  simp only [List.nil_append]
  cases rest with
  | nil =>
    show appendToken [] t = [t]
    simp [appendToken, ht]
  | cons c r =>
    have hcs : (c = '(' ∨ c = ')' ∨ c = '\'' ∨ c = ' ') := by
      simp [isBoundary, isAtomChar] at hb
      tauto
    have hflush : appendToken [] t = [t] := by simp [appendToken, ht]
    rcases hcs with rfl | rfl | rfl | rfl <;>
      · conv_lhs => rw [tokenizeLoop]
        conv_rhs => rw [tokenizeLoop]
        simp [appendToken, ht]

/-- C8 counterexample: the text "A\tB" (a tab between two letters)
tokenizes to the single atom token "A\tB", not to two tokens — only the
space character separates atoms, not every whitespace character. -/
theorem tab_does_not_separate_atoms :
    tokenize "A\tB".toList = ["A\tB".toList] ∧
    (["A\tB".toList] ≠ ["A".toList, "B".toList]) :=
  ⟨by decide, by decide⟩

/-- C8 amended: the space character is discarded and separates atoms: two
maximal runs of non-space/non-paren/non-quote (and non-whitespace)
characters joined by a single space tokenize to exactly those two atom
tokens.  Other whitespace characters inside the line are ordinary atom
characters (see the counterexample). -/
theorem space_separates_atoms (a b : Str) (ha : a ≠ []) (hb : b ≠ [])
    (hac : ∀ c ∈ a, isAtomChar c = true ∧ isGoSpace c = false)
    (hbc : ∀ c ∈ b, isAtomChar c = true ∧ isGoSpace c = false) :
    tokenize (a ++ ' ' :: b) = [a, b] := by
  unfold tokenize
  rw [trimSpace_eq_self]
  · rw [tokenize_atom a (' ' :: b) ha (fun c hc => (hac c hc).1) (by simp [isBoundary, isAtomChar])]
    have h1 : tokenizeLoop (' ' :: b) [] = tokenizeLoop b [] := by
      rw [tokenizeLoop]; simp [appendToken]
    have h2 : tokenizeLoop b [] = [b] := by
      have h3 := tokenize_atom b [] hb (fun c hc => (hbc c hc).1) (by simp [isBoundary])
      simpa using h3
    rw [h1, h2]
  · intro c hc
    cases a with
    | nil => exact absurd rfl ha
    | cons x t =>
      simp at hc
      subst hc
      exact (hac x (List.mem_cons_self x t)).2
  · intro c hc
    rw [List.getLast?_append_of_ne_nil _ (by simp)] at hc
    have hc2 : b.getLast? = some c := by
      rw [show (' ' :: b : List Char) = [' '] ++ b from rfl] at hc
      rwa [List.getLast?_append_of_ne_nil _ hb] at hc
    exact (hbc c (getLast?_mem_str hc2)).2

def goodChar (c : Char) : Bool := isAtomChar c && !isGoSpace c

def goodSym (s : Str) : Bool := !s.isEmpty && s.all goodChar && (atoi s).isNone

mutual
def goodValue : Value → Bool
  | .nil => true
  | .sym s => goodSym s
  | .int _ => true
  | .list xs => goodValueList xs

def goodValueList : List Value → Bool
  | [] => true
  | x :: xs => goodValue x && goodValueList xs
end

mutual
def canon : Value → Value
  | .nil => .sym "NIL".toList
  | .sym s =>
    if upper s = "T".toList then .sym "T".toList
    else if upper s = "NIL".toList then .sym "NIL".toList
    else .sym s
  | .int n => .int n
  | .list xs => .list (canonList xs)

def canonList : List Value → List Value
  | [] => []
  | x :: xs => canon x :: canonList xs
end

mutual
def printTokens : Value → List Str
  | .nil => ["NIL".toList]
  | .sym s => [toLispString (.sym s)]
  | .int n => [intDecimal n]
  | .list xs => ['('] :: printTokensList xs ++ [[')']]

def printTokensList : List Value → List Str
  | [] => []
  | x :: xs => printTokens x ++ printTokensList xs
end

theorem digitsToNat_append (xs : List Char) (c : Char) :
    digitsToNat (xs ++ [c]) = 10 * digitsToNat xs + (c.toNat - '0'.toNat) := by
  simp [digitsToNat, List.foldl_append, Nat.mul_comm]

theorem digitChar_val : ∀ d, d < 10 → (digitChar d).toNat - '0'.toNat = d := by decide

theorem digitChar_props :
    ∀ d, d < 10 → (digitChar d).isDigit = true ∧ digitChar d ≠ '+' ∧
      digitChar d ≠ '-' ∧ isAtomChar (digitChar d) = true ∧
      isGoSpace (digitChar d) = false := by decide

theorem natDecimalRev_spec :
    ∀ f n, n ≤ f → (digitsToNat (natDecimalRev f n).reverse = n) ∧
      (∀ c ∈ natDecimalRev f n, ∃ d, d < 10 ∧ c = digitChar d) := by
  intro f
  induction f with
  | zero =>
    intro n h
    have : n = 0 := by omega
    subst this
    exact ⟨rfl, by simp [natDecimalRev]⟩
  | succ f ih =>
    intro n h
    cases n with
    | zero => exact ⟨rfl, by simp [natDecimalRev]⟩
    | succ m =>
      have hdiv : (m + 1) / 10 ≤ f := by
        have := Nat.div_lt_self (Nat.succ_pos m) (by norm_num : (1 : Nat) < 10)
        omega
      obtain ⟨ih1, ih2⟩ := ih ((m + 1) / 10) hdiv
      constructor
      · show digitsToNat (digitChar ((m + 1) % 10) :: natDecimalRev f ((m + 1) / 10)).reverse = m + 1
        rw [List.reverse_cons, digitsToNat_append, ih1,
          digitChar_val _ (Nat.mod_lt _ (by norm_num))]
        omega
      · intro c hc
        simp only [natDecimalRev, List.mem_cons] at hc
        rcases hc with rfl | hc
        · exact ⟨(m + 1) % 10, Nat.mod_lt _ (by norm_num), rfl⟩
        · exact ih2 c hc

theorem natDecimal_spec (n : Nat) :
    natDecimal n ≠ [] ∧ (∀ c ∈ natDecimal n, ∃ d, d < 10 ∧ c = digitChar d) ∧
      digitsToNat (natDecimal n) = n := by
  unfold natDecimal
  by_cases h : n = 0
  · subst h
    refine ⟨by simp, ?_, by decide⟩
    intro c hc
    simp at hc
    subst hc
    exact ⟨0, by norm_num, by decide⟩
  · rw [if_neg h]
    obtain ⟨h1, h2⟩ := natDecimalRev_spec n n le_rfl
    refine ⟨?_, ?_, h1⟩
    · intro habs
      have : natDecimalRev n n = [] := by
        have := congrArg List.reverse habs
        simpa using this
      rw [this] at h1
      simp [digitsToNat] at h1
      exact h (h1.symm)
    · intro c hc
      exact h2 c (by simpa using hc)

theorem atoi_cons (c : Char) (t : Str) (h1 : c ≠ '+') (h2 : c ≠ '-') :
    atoi (c :: t) = (parseNatDigits (c :: t)).map (fun k => Int.ofNat k) := by
  unfold atoi
  split
  · next r heq => injection heq with hx _; exact absurd hx h1
  · next r heq => injection heq with hx _; exact absurd hx h2
  · rfl

theorem atoi_neg_cons (t : Str) :
    atoi ('-' :: t) = (parseNatDigits t).map (fun k => -(Int.ofNat k)) := by
  unfold atoi
  split
  · next r heq => injection heq with hx _; exact absurd hx (by decide)
  · next r heq => injection heq with _ hx; subst hx; rfl
  · next h1 h2 => exact absurd rfl (h2 t)

theorem parseNatDigits_natDecimal (n : Nat) : parseNatDigits (natDecimal n) = some n := by
  obtain ⟨h1, h2, h3⟩ := natDecimal_spec n
  unfold parseNatDigits
  rw [if_pos]
  · rw [h3]
  · simp only [Bool.and_eq_true, Bool.not_eq_true']
    constructor
    · simpa [List.isEmpty_iff] using h1
    · rw [List.all_eq_true]
      intro c hc
      obtain ⟨d, hd, rfl⟩ := h2 c hc
      exact (digitChar_props d hd).1

theorem natDecimal_head_props (n : Nat) :
    ∃ c t, natDecimal n = c :: t ∧ c ≠ '+' ∧ c ≠ '-' := by
  obtain ⟨h1, h2, _⟩ := natDecimal_spec n
  cases hh : natDecimal n with
  | nil => exact absurd hh h1
  | cons c t =>
    obtain ⟨d, hd, rfl⟩ := h2 c (by rw [hh]; exact List.mem_cons_self c t)
    exact ⟨digitChar d, t, rfl, (digitChar_props d hd).2.1, (digitChar_props d hd).2.2.1⟩

theorem atoi_intDecimal (n : Int) : atoi (intDecimal n) = some n := by
  unfold intDecimal
  by_cases hn : n < 0
  · rw [if_pos hn]
    show atoi ('-' :: natDecimal n.natAbs) = some n
    rw [atoi_neg_cons, parseNatDigits_natDecimal]
    simp only [Option.map_some']
    congr 1
    show (-(n.natAbs : Int)) = n
    omega
  · rw [if_neg hn]
    obtain ⟨c, t, heq, hp, hm⟩ := natDecimal_head_props n.toNat
    rw [heq, atoi_cons c t hp hm, ← heq, parseNatDigits_natDecimal]
    simp only [Option.map_some']
    congr 1
    show ((n.toNat : Int)) = n
    omega

theorem goodValueList_mem {xs : List Value} (h : goodValueList xs = true) :
    ∀ x ∈ xs, goodValue x = true := by
  induction xs with
  | nil => intro x hx; simp at hx
  | cons y t ih =>
    rw [goodValueList, Bool.and_eq_true] at h
    intro x hx
    rcases List.mem_cons.mp hx with rfl | hx2
    · exact h.1
    · exact ih h.2 x hx2

theorem intDecimal_chars (n : Int) :
    ∀ c ∈ intDecimal n, (∃ d, d < 10 ∧ c = digitChar d) ∨ c = '-' := by
  unfold intDecimal
  by_cases hn : n < 0
  · rw [if_pos hn]
    intro c hc
    rcases List.mem_cons.mp hc with rfl | hc2
    · right; rfl
    · left; exact (natDecimal_spec n.natAbs).2.1 c hc2
  · rw [if_neg hn]
    intro c hc
    left; exact (natDecimal_spec n.toNat).2.1 c hc

theorem printed_int_props (n : Int) :
    intDecimal n ≠ [] ∧ ∀ c ∈ intDecimal n, isAtomChar c = true ∧ isGoSpace c = false := by
  constructor
  · unfold intDecimal
    by_cases hn : n < 0
    · rw [if_pos hn]; simp
    · rw [if_neg hn]; exact (natDecimal_spec n.toNat).1
  · intro c hc
    rcases intDecimal_chars n c hc with ⟨d, hd, rfl⟩ | rfl
    · exact ⟨(digitChar_props d hd).2.2.2.1, (digitChar_props d hd).2.2.2.2⟩
    · exact ⟨by decide, by decide⟩

theorem printed_sym_props (s : Str) (hs : goodSym s = true) :
    toLispString (.sym s) ≠ [] ∧
    ∀ c ∈ toLispString (.sym s), isAtomChar c = true ∧ isGoSpace c = false := by
  rw [goodSym, Bool.and_eq_true, Bool.and_eq_true] at hs
  obtain ⟨⟨hne, hall⟩, _⟩ := hs
  by_cases h1 : upper s = "T".toList
  · rw [toLispString, if_pos h1]
    exact ⟨by decide, by decide⟩
  · by_cases h2 : upper s = "NIL".toList
    · rw [toLispString, if_neg h1, if_pos h2]
      exact ⟨by decide, by decide⟩
    · rw [toLispString, if_neg h1, if_neg h2]
      refine ⟨by simpa [List.isEmpty_iff] using hne, ?_⟩
      intro c hc
      have := (List.all_eq_true.mp hall) c hc
      rw [goodChar, Bool.and_eq_true, Bool.not_eq_true'] at this
      exact this

theorem printed_nil_props :
    toLispString Value.nil ≠ [] ∧
    ∀ c ∈ toLispString Value.nil, isAtomChar c = true ∧ isGoSpace c = false :=
  ⟨by decide, by decide⟩

theorem printTokens_atom_eq : (printTokens Value.nil = [toLispString Value.nil]) ∧
    (∀ s, printTokens (.sym s) = [toLispString (.sym s)]) ∧
    (∀ n, printTokens (.int n) = [toLispString (.int n)]) :=
  ⟨rfl, fun _ => rfl, fun _ => rfl⟩

theorem printTokens_ne_nil (v : Value) : printTokens v ≠ [] := by
  cases v <;> simp [printTokens]

theorem printTokens_length_pos (v : Value) : 1 ≤ (printTokens v).length := by
  have := printTokens_ne_nil v
  cases h : printTokens v with
  | nil => exact absurd h this
  | cons a t => simp

theorem atomtext_ne_special (t : Str) (h : ∀ c ∈ t, isAtomChar c = true) :
    t ≠ ['\''] ∧ t ≠ ['('] ∧ t ≠ [')'] := by
  refine ⟨?_, ?_, ?_⟩ <;>
    · rintro rfl
      have := h _ (List.mem_cons_self _ _)
      revert this
      decide

theorem printTokens_head (v : Value) (hv : goodValue v = true) :
    ∃ t0 ts0, printTokens v = t0 :: ts0 ∧ t0 ≠ [')'] := by
  cases v with
  | nil => exact ⟨"NIL".toList, [], rfl, by decide⟩
  | sym s =>
    refine ⟨toLispString (.sym s), [], rfl, ?_⟩
    have hp := printed_sym_props s (by simpa [goodValue] using hv)
    exact (atomtext_ne_special _ (fun c hc => (hp.2 c hc).1)).2.2
  | int n =>
    refine ⟨intDecimal n, [], rfl, ?_⟩
    have hp := printed_int_props n
    exact (atomtext_ne_special _ (fun c hc => (hp.2 c hc).1)).2.2
  | list xs => exact ⟨['('], printTokensList xs ++ [[')']], rfl, by decide⟩

theorem printTokens_mem_length_le {x : Value} {xs : List Value} (hx : x ∈ xs) :
    (printTokens x).length ≤ (printTokensList xs).length := by
  induction xs with
  | nil => simp at hx
  | cons y t ih =>
    rcases List.mem_cons.mp hx with rfl | h2
    · simp [printTokensList]
    · calc (printTokens x).length ≤ (printTokensList t).length := ih h2
        _ ≤ (printTokensList (y :: t)).length := by simp [printTokensList]

theorem tokenizeLoop_print (v : Value) :
    goodValue v = true → ∀ rest, isBoundary rest = true →
      tokenizeLoop (toLispString v ++ rest) [] = printTokens v ++ tokenizeLoop rest [] := by
  induction v using value_induction with
  | hnil =>
    intro _ rest hb
    rw [tokenize_atom _ rest printed_nil_props.1 (fun c hc => (printed_nil_props.2 c hc).1) hb]
    rfl
  | hsym s =>
    intro hv rest hb
    have hp := printed_sym_props s (by simpa [goodValue] using hv)
    rw [tokenize_atom _ rest hp.1 (fun c hc => (hp.2 c hc).1) hb]
    rfl
  | hint n =>
    intro _ rest hb
    have hp := printed_int_props n
    rw [show toLispString (.int n) = intDecimal n from rfl]
    rw [tokenize_atom _ rest hp.1 (fun c hc => (hp.2 c hc).1) hb]
    rfl
  | hlist xs ih =>
    intro hv rest hb
    have hgood : ∀ x ∈ xs, goodValue x = true :=
      goodValueList_mem (by simpa [goodValue] using hv)
    have inner : ∀ (ys : List Value), (∀ y ∈ ys, goodValue y = true) →
        (∀ y ∈ ys, ∀ r, isBoundary r = true →
          tokenizeLoop (toLispString y ++ r) [] = printTokens y ++ tokenizeLoop r []) →
        ∀ rest2, tokenizeLoop (joinSpace (toLispStrings ys) ++ ')' :: rest2) [] =
          printTokensList ys ++ tokenizeLoop (')' :: rest2) [] := by
      intro ys
      induction ys with
      | nil => intro _ _ rest2; simp [toLispStrings, joinSpace, printTokensList]
      | cons y t ihy =>
        intro hg hys rest2
        cases t with
        | nil =>
          have := hys y (List.mem_cons_self y []) (')' :: rest2) rfl
          simpa [toLispStrings, joinSpace, printTokensList] using this
        | cons z t2 =>
          show tokenizeLoop ((toLispString y ++ ' ' :: joinSpace (toLispStrings (z :: t2)))
              ++ ')' :: rest2) [] = _
          rw [List.append_assoc, List.cons_append]
          rw [hys y (List.mem_cons_self y _)
            (' ' :: (joinSpace (toLispStrings (z :: t2)) ++ ')' :: rest2)) rfl]
          have hstep : tokenizeLoop (' ' :: (joinSpace (toLispStrings (z :: t2)) ++ ')' :: rest2)) []
              = tokenizeLoop (joinSpace (toLispStrings (z :: t2)) ++ ')' :: rest2) [] := by
            rw [tokenizeLoop]
            simp [appendToken]
          rw [hstep]
          rw [ihy (fun a ha => hg a (List.mem_cons_of_mem y ha))
            (fun a ha r hr => hys a (List.mem_cons_of_mem y ha) r hr) rest2]
          simp [printTokensList]
    have hopen : tokenizeLoop (toLispString (.list xs) ++ rest) []
        = ['('] :: tokenizeLoop (joinSpace (toLispStrings xs) ++ ')' :: rest) [] := by
      show tokenizeLoop (('(' :: joinSpace (toLispStrings xs) ++ [')']) ++ rest) [] = _
      rw [show (('(' :: joinSpace (toLispStrings xs) ++ [')']) ++ rest)
          = '(' :: (joinSpace (toLispStrings xs) ++ ')' :: rest) by simp]
      rw [tokenizeLoop]
      simp [appendToken]
    rw [hopen, inner xs hgood (fun y hy r hr => ih y hy (hgood y hy) r hr) rest]
    have hclose : tokenizeLoop (')' :: rest) [] = [')'] :: tokenizeLoop rest [] := by
      rw [tokenizeLoop]; simp [appendToken]
    rw [hclose]
    simp [printTokens]

theorem parseListAux_spec (p : List Str → Option (Except String (Value × List Str))) :
    ∀ (xs : List Value) (m : Nat) (acc : List Value) (rest : List Str),
    (∀ x ∈ xs, goodValue x = true) →
    (∀ x ∈ xs, ∀ r, p (printTokens x ++ r) = some (.ok (canon x, r))) →
    (printTokensList xs).length + 1 ≤ m →
    parseListAux p m (printTokensList xs ++ [')'] :: rest) acc =
      some (.ok (.list (acc ++ canonList xs), rest)) := by
  intro xs
  induction xs with
  | nil =>
    intro m acc rest _ _ hm
    obtain ⟨k, rfl⟩ : ∃ k, m = k + 1 := ⟨m - 1, by omega⟩
    show parseListAux p (k + 1) ([')'] :: rest) acc = _
    rw [parseListAux]
    simp [canonList]
  | cons x t ih =>
    intro m acc rest hg hx hm
    obtain ⟨t0, ts0, heq, hne⟩ := printTokens_head x (hg x (List.mem_cons_self x t))
    have hlen1 : 1 ≤ (printTokens x).length := printTokens_length_pos x
    have hmlen : (printTokensList (x :: t)).length
        = (printTokens x).length + (printTokensList t).length := by
      simp [printTokensList]
    obtain ⟨k, rfl⟩ : ∃ k, m = k + 1 := ⟨m - 1, by omega⟩
    show parseListAux p (k + 1) (printTokensList (x :: t) ++ [')'] :: rest) acc = _
    have hsplit : printTokensList (x :: t) ++ [')'] :: rest
        = t0 :: (ts0 ++ (printTokensList t ++ [')'] :: rest)) := by
      show printTokens x ++ printTokensList t ++ [')'] :: rest = _
      rw [heq]
      simp
    rw [hsplit, parseListAux, if_neg hne]
    have hfull : t0 :: (ts0 ++ (printTokensList t ++ [')'] :: rest))
        = printTokens x ++ (printTokensList t ++ [')'] :: rest) := by
      rw [heq]
      rfl
    rw [hfull, hx x (List.mem_cons_self x t) _]
    show parseListAux p k (printTokensList t ++ [')'] :: rest) (acc ++ [canon x]) = _
    rw [ih k (acc ++ [canon x]) rest (fun a ha => hg a (List.mem_cons_of_mem x ha))
      (fun a ha r => hx a (List.mem_cons_of_mem x ha) r) (by omega)]
    simp [canonList]

theorem parseSExpression_print (v : Value) :
    goodValue v = true → ∀ (n : Nat) (rest : List Str), (printTokens v).length ≤ n →
      parseSExpression n (printTokens v ++ rest) = some (.ok (canon v, rest)) := by
  induction v using value_induction with
  | hnil =>
    intro _ n rest hn
    obtain ⟨m, rfl⟩ : ∃ m, n = m + 1 := ⟨n - 1, by simp [printTokens] at hn; omega⟩
    rfl
  | hsym s =>
    intro hv n rest hn
    obtain ⟨m, rfl⟩ : ∃ m, n = m + 1 := ⟨n - 1, by
      have := printTokens_length_pos (.sym s); omega⟩
    have hgs : goodSym s = true := by simpa [goodValue] using hv
    by_cases h1 : upper s = "T".toList
    · have htext : toLispString (.sym s) = "T".toList := by rw [toLispString, if_pos h1]
      show parseSExpression (m + 1) ([toLispString (.sym s)] ++ rest) = _
      rw [htext]
      show some _ = _
      rw [show canon (.sym s) = .sym "T".toList by rw [canon, if_pos h1]]
      rfl
    · by_cases h2 : upper s = "NIL".toList
      · have htext : toLispString (.sym s) = "NIL".toList := by
          rw [toLispString, if_neg h1, if_pos h2]
        show parseSExpression (m + 1) ([toLispString (.sym s)] ++ rest) = _
        rw [htext]
        show some _ = _
        rw [show canon (.sym s) = .sym "NIL".toList by rw [canon, if_neg h1, if_pos h2]]
        rfl
      · have htext : toLispString (.sym s) = s := by rw [toLispString, if_neg h1, if_neg h2]
        have hp := printed_sym_props s hgs
        obtain ⟨hq, hop, hcp⟩ := atomtext_ne_special (toLispString (.sym s))
          (fun c hc => (hp.2 c hc).1)
        rw [htext] at hq hop hcp
        have hatoi : atoi s = none := by
          rw [goodSym, Bool.and_eq_true] at hgs
          exact Option.isNone_iff_eq_none.mp hgs.2
        have hpt : printTokens (Value.sym s) = [s] := by
          show [toLispString (.sym s)] = [s]
          rw [htext]
        rw [hpt]
        show parseSExpression (m + 1) (s :: rest) = _
        rw [parseSExpression, if_neg hq, if_neg hop, if_neg hcp, hatoi]
        rw [show canon (.sym s) = .sym s by rw [canon, if_neg h1, if_neg h2]]
  | hint k =>
    intro _ n rest hn
    obtain ⟨m, rfl⟩ : ∃ m, n = m + 1 := ⟨n - 1, by
      have := printTokens_length_pos (.int k); omega⟩
    have hp := printed_int_props k
    obtain ⟨hq, hop, hcp⟩ := atomtext_ne_special (intDecimal k) (fun c hc => (hp.2 c hc).1)
    show parseSExpression (m + 1) (intDecimal k :: rest) = _
    rw [parseSExpression, if_neg hq, if_neg hop, if_neg hcp, atoi_intDecimal]
    rfl
  | hlist xs ih =>
    intro hv n rest hn
    have hgood : ∀ x ∈ xs, goodValue x = true :=
      goodValueList_mem (by simpa [goodValue] using hv)
    have hlen : (printTokens (.list xs)).length = (printTokensList xs).length + 2 := by
      simp [printTokens]
    obtain ⟨m, rfl⟩ : ∃ m, n = m + 1 := ⟨n - 1, by omega⟩
    have hshape : printTokens (.list xs) ++ rest
        = ['('] :: (printTokensList xs ++ [')'] :: rest) := by
      show ('(' :: []) :: printTokensList xs ++ [[')']] ++ rest = _
      simp
    rw [hshape, parseSExpression, if_neg (by decide), if_pos rfl]
    rw [parseListAux_spec (parseSExpression m) xs
      ((printTokensList xs ++ [')'] :: rest).length + 1) [] rest hgood
      (fun x hx r => ih x hx (hgood x hx) m r (by
        have h1 := printTokens_mem_length_le hx
        omega))
      (by simp only [List.length_append, List.length_cons]; omega)]
    simp [canon]

theorem toLispString_canon (v : Value) : toLispString (canon v) = toLispString v := by
  induction v using value_induction with
  | hnil => rfl
  | hsym s =>
    by_cases h1 : upper s = "T".toList
    · rw [canon, if_pos h1, toLispString, toLispString, if_pos h1]
      decide
    · by_cases h2 : upper s = "NIL".toList
      · rw [canon, if_neg h1, if_pos h2, toLispString, toLispString, if_neg h1, if_pos h2]
        decide
      · rw [canon, if_neg h1, if_neg h2]
  | hint n => rfl
  | hlist xs ih =>
    show toLispString (.list (canonList xs)) = toLispString (.list xs)
    rw [toLispString, toLispString]
    have : toLispStrings (canonList xs) = toLispStrings xs := by
      induction xs with
      | nil => rfl
      | cons x t iht =>
        rw [canonList, toLispStrings, toLispStrings]
        rw [ih x (List.mem_cons_self x t)]
        rw [iht (fun a ha => ih a (List.mem_cons_of_mem x ha))]
    rw [this]

theorem printed_head_last (v : Value) (hv : goodValue v = true) :
    (∀ c, (toLispString v).head? = some c → isGoSpace c = false) ∧
    (∀ c, (toLispString v).getLast? = some c → isGoSpace c = false) := by
  have atomCase : ∀ (t : Str), (∀ c ∈ t, isAtomChar c = true ∧ isGoSpace c = false) →
      (∀ c, t.head? = some c → isGoSpace c = false) ∧
      (∀ c, t.getLast? = some c → isGoSpace c = false) := by
    intro t ht
    exact ⟨fun c hc => (ht c (head?_mem_str hc)).2,
           fun c hc => (ht c (getLast?_mem_str hc)).2⟩
  cases v with
  | nil => exact atomCase _ printed_nil_props.2
  | sym s => exact atomCase _ (printed_sym_props s (by simpa [goodValue] using hv)).2
  | int n => exact atomCase _ (printed_int_props n).2
  | list xs =>
    constructor
    · intro c hc
      show _
      rw [show toLispString (.list xs) = '(' :: (joinSpace (toLispStrings xs) ++ [')'])
        from rfl] at hc
      simp at hc
      subst hc
      decide
    · intro c hc
      rw [show toLispString (.list xs) = ('(' :: joinSpace (toLispStrings xs)) ++ [')']
        by simp [toLispString]] at hc
      rw [List.getLast?_concat] at hc
      injection hc with hc
      subst hc
      decide

theorem tokenize_print (v : Value) (hv : goodValue v = true) :
    tokenize (toLispString v) = printTokens v := by
  unfold tokenize
  obtain ⟨hh, hl⟩ := printed_head_last v hv
  rw [trimSpace_eq_self _ hh hl]
  have := tokenizeLoop_print v hv [] rfl
  simpa [tokenizeLoop, appendToken] using this

theorem read_print (v : Value) (hv : goodValue v = true) :
    readSExpression (toLispString v) = .ok (canon v) := by
  unfold readSExpression
  rw [tokenize_print v hv]
  have hne : (printTokens v).isEmpty = false := by
    cases h : printTokens v with
    | nil => exact absurd h (printTokens_ne_nil v)
    | cons a t => rfl
  show (if (printTokens v).isEmpty = true then Outcome.ok Value.nil
    else match parseSExpression ((printTokens v).length + 1) (printTokens v) with
      | none => Outcome.fuel
      | some (.error msg) => Outcome.panic msg
      | some (.ok (w, rest)) =>
        if rest.isEmpty = true then Outcome.ok w
        else Outcome.panic "extra tokens after parse") = _
  rw [hne]
  simp only [Bool.false_eq_true, if_false]
  have hp := parseSExpression_print v hv ((printTokens v).length + 1) [] (by omega)
  rw [show printTokens v ++ ([] : List Str) = printTokens v by simp] at hp
  rw [hp]
  rfl

/-- C7: read/print round trip.  Reading the text "(A B . C)" yields the
4-element list [A, B, ., C] (the dot is an ordinary symbol) and printing
that list reproduces "(A B . C)".  Moreover, for every value built from
integers, well-formed symbols, and lists thereof (`goodValue`), reading its
printed text yields its T/NIL-canonical form, which prints identically —
hence printing after reading reproduces the original text up to T/NIL
canonicalization. -/
theorem read_print_round_trip :
    readSExpression "(A B . C)".toList = .ok (L [S "A", S "B", S ".", S "C"]) ∧
    toLispString (L [S "A", S "B", S ".", S "C"]) = "(A B . C)".toList ∧
    (∀ v : Value, goodValue v = true →
      readSExpression (toLispString v) = .ok (canon v) ∧
      toLispString (canon v) = toLispString v) :=
  ⟨by decide, by decide, fun v hv => ⟨read_print v hv, toLispString_canon v⟩⟩

/-- Witness for `read_print_round_trip` at the value (foo -12 ()). -/
theorem read_print_round_trip_witness :
    goodValue (L [S "foo", .int (-12), L []]) = true ∧
    readSExpression (toLispString (L [S "foo", .int (-12), L []]))
      = .ok (canon (L [S "foo", .int (-12), L []])) ∧
    toLispString (canon (L [S "foo", .int (-12), L []]))
      = toLispString (L [S "foo", .int (-12), L []]) :=
  ⟨by decide, (read_print_round_trip.2.2 _ (by decide)).1,
   (read_print_round_trip.2.2 _ (by decide)).2⟩

/-- Witness for `space_separates_atoms` at the atoms ab and cd. -/
theorem space_separates_atoms_witness :
    ("ab".toList ≠ ([] : Str)) ∧ ("cd".toList ≠ ([] : Str)) ∧
    tokenize ("ab".toList ++ ' ' :: "cd".toList) = ["ab".toList, "cd".toList] :=
  ⟨by decide, by decide,
   space_separates_atoms "ab".toList "cd".toList (by decide) (by decide)
     (by decide) (by decide)⟩
